import Mathlib

/-!
Verification of the torque acquisition / tolerance-classification core of the
Torque-Testing-App-V2 repository (`serial_reader.py`, `modern_torque_app.py`).

Modelling conventions:
* Python floats are modelled as exact rationals (`ℚ`).  `round(x, n)` is
  modelled as exact round-half-to-even on the rational value, and the
  formatting of a one-decimal float (`f"{round(x,1)}"`) is modelled as exact
  decimal notation with one digit after the point, matching the shortest-repr
  output Python produces for one-decimal values.
* Python strings are modelled as `List Char`; `str.split`, `str.strip`,
  `str.lower` and `float(...)` are given executable models below.  The model
  of `float` covers sign / digits / decimal point / exponent literals (the
  `inf` / `nan` / underscore forms never arise in this pipeline).
-/

namespace TorqueApp

/-! ## Python primitives -/

/-- The characters Python's `str.strip()` removes. -/
def pyIsSpace (c : Char) : Bool :=
  c = ' ' || c = '\t' || c = '\n' || c = '\x0d' || c = '\x0b' || c = '\x0c'

/-- Model of Python `str.strip()`: drop leading and trailing whitespace. -/
def stripWs (s : List Char) : List Char :=
  ((s.dropWhile pyIsSpace).reverse.dropWhile pyIsSpace).reverse

/-- Model of Python `str.lower()` (ASCII case folding suffices here). -/
def pyLower (s : List Char) : List Char :=
  s.map Char.toLower

/-- Model of Python `str.split(sep)` for a one-character separator:
split at every occurrence, keeping empty parts. -/
def pySplit (sep : Char) : List Char → List (List Char)
  | [] => [[]]
  | c :: rest =>
    if c = sep then [] :: pySplit sep rest
    else
      match pySplit sep rest with
      | [] => [[c]]
      | p :: ps => (c :: p) :: ps

/-- The decimal digit character for `n < 10`. -/
def decDigit (n : ℕ) : Char :=
  Char.ofNat (48 + n)

/-- Numeric value of a digit character. -/
def digitVal (c : Char) : ℕ :=
  c.toNat - 48

/-- Value of a digit string read left to right. -/
def natVal (ds : List Char) : ℕ :=
  ds.foldl (fun a c => 10 * a + digitVal c) 0

/-- Decimal notation of a natural number (most significant digit first). -/
def natToDec (n : ℕ) : List Char :=
  if _h : n < 10 then [decDigit n]
  else natToDec (n / 10) ++ [decDigit (n % 10)]
  decreasing_by
    exact Nat.div_lt_self (by omega) (by omega)

/-- Round-half-to-even to an integer, as Python's builtin `round` does
on exact values. -/
def pyRound (q : ℚ) : ℤ :=
  if q - ⌊q⌋ < 1/2 then ⌊q⌋
  else if 1/2 < q - ⌊q⌋ then ⌊q⌋ + 1
  else if Even ⌊q⌋ then ⌊q⌋ else ⌊q⌋ + 1

/-- Model of Python `round(x, 1)`. -/
def round1 (q : ℚ) : ℚ :=
  (pyRound (10 * q) : ℚ) / 10

/-- Exponent part of a Python float literal: empty, or `e`/`E`, an optional
sign and a nonempty digit string. -/
def pyExpPart : List Char → Option ℤ
  | [] => some 0
  | 'e' :: r => pyExpDigits r
  | 'E' :: r => pyExpDigits r
  | _ => none
where
  pyExpDigits : List Char → Option ℤ
    | '+' :: r => if r ≠ [] ∧ r.all Char.isDigit then some (natVal r) else none
    | '-' :: r => if r ≠ [] ∧ r.all Char.isDigit then some (-(natVal r : ℤ)) else none
    | r => if r ≠ [] ∧ r.all Char.isDigit then some (natVal r) else none

/-- Unsigned mantissa (with optional exponent) of a Python float literal. -/
def pyFloatMag (s : List Char) : Option ℚ :=
  let ds₁ := s.takeWhile Char.isDigit
  let r₁ := s.dropWhile Char.isDigit
  match r₁ with
  | '.' :: r₂ =>
    let ds₂ := r₂.takeWhile Char.isDigit
    let r₃ := r₂.dropWhile Char.isDigit
    if ds₁ = [] ∧ ds₂ = [] then none
    else (pyExpPart r₃).map fun e =>
      ((natVal ds₁ : ℚ) + (natVal ds₂ : ℚ) / 10 ^ ds₂.length) * (10 : ℚ) ^ e
  | _ =>
    if ds₁ = [] then none
    else (pyExpPart r₁).map fun e => (natVal ds₁ : ℚ) * (10 : ℚ) ^ e

/-- Model of Python `float(str)` on finite decimal literals: strips
whitespace, reads an optional sign and a mantissa with optional exponent;
returns `none` where Python raises `ValueError`. -/
def pyFloat (s : List Char) : Option ℚ :=
  match stripWs s with
  | [] => none
  | c :: r =>
    if c = '+' then pyFloatMag r
    else if c = '-' then (pyFloatMag r).map (fun q => -q)
    else pyFloatMag (c :: r)

/-! ## `serial_reader.py` -/

/-- `parse_range` from `serial_reader.py`: split on `'-'`; unless that gives
exactly two float-parseable parts, return `(None, None)`. -/
def parse_range (range_str : List Char) : Option ℚ × Option ℚ :=
  match pySplit '-' range_str with
  | [p0, p1] =>
    match pyFloat (stripWs p0), pyFloat (stripWs p1) with
    | some low, some high => (some low, some high)
    | _, _ => (none, none)
  | _ => (none, none)

/-- `within_allowance` from `serial_reader.py`. -/
def within_allowance (target : ℚ) (range_str : List Char) : Bool :=
  match parse_range range_str with
  | (some low, some high) => decide (low ≤ target ∧ target ≤ high)
  | _ => false

/-- The leftmost maximal run of characters matching `[\d.]`, i.e. the text
captured by `re.search(r"([\d.]+)", line)`. -/
def firstRun (line : List Char) : Option (List Char) :=
  match line.dropWhile (fun c => !(c.isDigit || c = '.')) with
  | [] => none
  | r => some (r.takeWhile (fun c => c.isDigit || c = '.'))

/-- `parse_torque_value` from `serial_reader.py`: the first `[\d.]+` run,
fed to `float`; `None` when there is no run or it does not parse. -/
def parse_torque_value (line : List Char) : Option ℚ :=
  (firstRun line).bind pyFloat

/-! ## `modern_torque_app.py`: profile generation -/

/-- `calc_applied_torques`: multiply by the three fixed factors and round
each product to the nearest multiple of 10. -/
def calc_applied_torques (max_torque : ℚ) : List ℚ :=
  let factors : List ℚ := [916/1000, 583/1000, 333/1000]
  factors.map fun f => (pyRound (max_torque * f / 10) : ℚ) * 10

/-- Decimal notation of a one-decimal value given as a count of tenths,
as Python prints `round(x, 1)`. -/
def fmtTenths (k : ℤ) : List Char :=
  (if k < 0 then ['-'] else []) ++ natToDec (k.natAbs / 10) ++ '.' :: [decDigit (k.natAbs % 10)]

/-- The text Python's `f"{round(q,1)}"` produces. -/
def fmtRound1 (q : ℚ) : List Char :=
  fmtTenths (pyRound (10 * q))

/-- `calc_allowance_range`: 6% tolerance below 10, else 4%; the two bounds
are rounded to one decimal and joined with `" - "`. -/
def calc_allowance_range (applied_val : ℚ) : List Char :=
  let tolerance : ℚ := if applied_val < 10 then 6/100 else 4/100
  let low := applied_val * (1 - tolerance)
  let high := applied_val * (1 + tolerance)
  fmtRound1 low ++ (' ' :: '-' :: ' ' :: []) ++ fmtRound1 high

/-! ## Classification (`find_fits_in_selected_row`) -/

/-- The fields of a stored torque-table row that this core reads
(remaining DB columns are never consulted by the pipeline). -/
structure TorqueRow where
  id : ℕ
  max_torque : ℚ
  unit : List Char
  allowance1 : List Char
  allowance2 : List Char
  allowance3 : List Char
deriving DecidableEq, Repr

/-- `row.get(f"allowance{i}", "")`. -/
def rowGet (row : TorqueRow) : ℕ → List Char
  | 1 => row.allowance1
  | 2 => row.allowance2
  | 3 => row.allowance3
  | _ => []

/-- One classification match, as built by `find_fits_in_selected_row`. -/
structure Fit where
  row : TorqueRow
  allowance_index : ℕ
  range_str : List Char
  diff : ℚ
deriving DecidableEq, Repr

/-- The loop body of `find_fits_in_selected_row` for one band index. -/
def bandFit (target : ℚ) (row : TorqueRow) (i : ℕ) : List Fit :=
  let rng := rowGet row i
  if within_allowance target rng then
    match parse_range rng with
    | (some low, some high) =>
      [{ row := row, allowance_index := i, range_str := rng,
         diff := |((low + high) / 2) - target| }]
    | _ => []
  else []

/-- `find_fits_in_selected_row`: collect the band fits in index order 1..3,
then sort by `diff` (Python `list.sort` is stable; `mergeSort` with `≤` on
the key computes the same stable order). -/
def find_fits_in_selected_row (target : ℚ) (row : TorqueRow) : List Fit :=
  (bandFit target row 1 ++ bandFit target row 2 ++ bandFit target row 3).mergeSort
    fun a b => decide (a.diff ≤ b.diff)

/-! ## Unit conversion and profile matching (`auto_select_max_torque`) -/

/-- The three synonym sets, as read from settings (defaults below). -/
structure UnitConfig where
  ftLb : List (List Char)
  inLb : List (List Char)
  nm : List (List Char)

/-- Default foot-pound synonyms from `auto_select_max_torque`. -/
def defaultFtLb : List (List Char) :=
  ["ft/lb", "ft-lb", "ft.lb", "ft lb", "ft/lbs", "ft-lbs", "ft.lbs", "ft lbs"].map String.data

/-- Default inch-pound synonyms from `auto_select_max_torque`. -/
def defaultInLb : List (List Char) :=
  ["in/lb", "in-lb", "in.lb", "in lb", "in/lbs", "in-lbs", "in.lbs", "in lbs"].map String.data

/-- Default newton-meter synonyms from `auto_select_max_torque`. -/
def defaultNm : List (List Char) :=
  ["nm", "n.m", "n*m", "nm.", "n.m."].map String.data

/-- The default synonym configuration. -/
def defaultUnitConfig : UnitConfig :=
  { ftLb := defaultFtLb, inLb := defaultInLb, nm := defaultNm }

/-- `ftlb_to_nm` from `auto_select_max_torque`. -/
def ftlb_to_nm (val : ℚ) : ℚ := val * (135582/100000)

/-- `inlb_to_nm` from `auto_select_max_torque`. -/
def inlb_to_nm (val : ℚ) : ℚ := val * (113/1000)

/-- The unit-normalization chain of `auto_select_max_torque`: lower-case and
strip the unit text, then convert by synonym-set membership; unrecognized
units leave the value unchanged. -/
def normalizeUnit (cfg : UnitConfig) (val : ℚ) (unit : List Char) : ℚ :=
  let ul := stripWs (pyLower unit)
  if ul ∈ cfg.ftLb then ftlb_to_nm val
  else if ul ∈ cfg.inLb then inlb_to_nm val
  else if ul ∈ cfg.nm then val
  else val

/-- The `for i, row in enumerate(table_data)` search of
`auto_select_max_torque`: first row within tolerance, with its index. -/
def findProfileAux (cfg : UnitConfig) (vnm tol : ℚ) :
    List TorqueRow → ℕ → Option (ℕ × TorqueRow)
  | [], _ => none
  | r :: rest, i =>
    if |normalizeUnit cfg r.max_torque r.unit - vnm| ≤ tol then some (i, r)
    else findProfileAux cfg vnm tol rest (i + 1)

/-- `auto_select_max_torque`: normalize the extracted value, compute the
tolerance `max(10% of it, 2.0)`, and select the first close-enough row;
when nothing matches the current selection `sel` is left as it is. -/
def auto_select_max_torque (cfg : UnitConfig) (extracted_val : ℚ)
    (extracted_unit : List Char) (table : List TorqueRow)
    (sel : Option (ℕ × TorqueRow)) : Option (ℕ × TorqueRow) :=
  let vnm := normalizeUnit cfg extracted_val extracted_unit
  let tol := max (vnm * (10/100)) 2
  match findProfileAux cfg vnm tol table 0 with
  | some p => some p
  | none => sel

/-! ## Sample aggregation (`process_reading` / `results_by_range`) -/

/-- One `insert_raw_data(target_torque, row_id, band_label, range_str)`
call recorded by the persistence collaborator. -/
structure RawRecord where
  value : ℚ
  row_id : ℕ
  band_label : List Char
  range_str : List Char
deriving DecidableEq, Repr

/-- The per-session aggregation state: `self.results_by_range` plus the
trace of persistence calls made so far. -/
structure AggState where
  results_by_range : List (List Char × List ℚ)
  raw_data : List RawRecord
deriving DecidableEq, Repr

/-- `self.results_by_range.get(key, [])`. -/
def lookupRange : List (List Char × List ℚ) → List Char → List ℚ
  | [], _ => []
  | (k, v) :: rest, key => if k = key then v else lookupRange rest key

/-- `self.results_by_range[key] = value`. -/
def setRange : List (List Char × List ℚ) → List Char → List ℚ →
    List (List Char × List ℚ)
  | [], key, v => [(key, v)]
  | (k, w) :: rest, key, v =>
    if k = key then (k, v) :: rest else (k, w) :: setRange rest key v

/-- The per-fit body of `process_reading`: append the value and record it
when the band holds fewer than 5 samples, otherwise do nothing. -/
def accept_fit (rowId : ℕ) (value : ℚ) (st : AggState) (fit : Fit) : AggState :=
  let key := fit.range_str
  let current := lookupRange st.results_by_range key
  if current.length < 5 then
    { results_by_range := setRange st.results_by_range key (current ++ [value]),
      raw_data := st.raw_data ++
        [{ value := value, row_id := rowId,
           band_label := "allowance".data ++ natToDec fit.allowance_index,
           range_str := key }] }
  else st

/-- The aggregation effect of `process_reading`: attempt acceptance for each
fit in the order produced by the classifier. -/
def process_reading (st : AggState) (rowId : ℕ) (value : ℚ) (fits : List Fit) :
    AggState :=
  fits.foldl (accept_fit rowId value) st

/-- The empty aggregation state (`self.results_by_range = {}` at start). -/
def initAggState : AggState :=
  { results_by_range := [], raw_data := [] }

/-- `display_pre_test_rows` resets `self.results_by_range = {}` (persisted
raw data is owned by the DB collaborator and is not touched). -/
def resetAggregator (st : AggState) : AggState :=
  { results_by_range := [], raw_data := st.raw_data }

/-! ## Acquisition loop (`read_from_serial`) -/

/-- One outcome of `ser.readline()`: a decoded line, or a raised
read exception. -/
inductive ReadEvent where
  | line (s : List Char)
  | fail
deriving DecidableEq, Repr

/-- Everything a run of `read_from_serial` does that its caller or its
environment can observe. -/
structure LoopRun where
  /-- values passed to `callback`, in order -/
  callbacks : List ℚ
  /-- the `"Could not open serial port"` debug print happened -/
  openErrorLogged : Bool
  /-- number of `"Error in serial reading"` debug prints -/
  readErrorLogs : ℕ
  /-- `ser.close()` ran -/
  closed : Bool
  /-- an exception escaped to the caller (the source catches everything,
  so this is how "an explicit error was surfaced" is observed) -/
  raised : Bool
deriving DecidableEq, Repr

/-- The `while True` body: strip each line, skip empty or unparseable ones,
invoke the callback on parsed values; a read failure is caught once and
ends the loop. Returns the callback values and the error-log count. -/
def loopGo : List ReadEvent → List ℚ × ℕ
  | [] => ([], 0)
  | .fail :: _ => ([], 1)
  | .line s :: rest =>
    let stripped := stripWs s
    let step := loopGo rest
    match (if stripped ≠ [] then parse_torque_value stripped else none) with
    | some v => (v :: step.1, step.2)
    | none => step

/-- `read_from_serial`, driven by the list of read outcomes the device
produces before the stop event is observed.  A failed open is caught,
logged and the function returns `None`; no exception ever escapes. -/
def read_from_serial (openOk : Bool) (events : List ReadEvent) : LoopRun :=
  if openOk then
    let step := loopGo events
    { callbacks := step.1, openErrorLogged := false, readErrorLogs := step.2,
      closed := true, raised := false }
  else
    { callbacks := [], openErrorLogged := true, readErrorLogs := 0,
      closed := false, raised := false }

/-- A stored row with the given id and rated torque in newton-meters and
empty allowance strings (a concrete-test fixture). -/
def rowNm (idv : ℕ) (mt : ℚ) : TorqueRow :=
  { id := idv, max_torque := mt, unit := "nm".data,
    allowance1 := [], allowance2 := [], allowance3 := [] }

/-- A row whose first allowance field is the given string and whose other
fields are empty (a concrete-test fixture). -/
def rowWith1 (s : List Char) : TorqueRow :=
  { id := 0, max_torque := 0, unit := [], allowance1 := s,
    allowance2 := [], allowance3 := [] }

/-! ## Spec-side definitions (for refinement comparisons) -/

/-- The band formula exactly as §4.1/§8 of the spec words it: for
`target >= 10` the pair `(target*0.96, target*1.04)` rounded to one
decimal, below 10 the pair `(target*0.94, target*1.06)`. -/
def compute_band_spec (target : ℚ) : ℚ × ℚ :=
  if target < 10 then (round1 (target * (94/100)), round1 (target * (106/100)))
  else (round1 (target * (96/100)), round1 (target * (104/100)))

/-- The maximal runs of digit/period characters of a line, left to right. -/
def digitDotRuns : List Char → List (List Char)
  | [] => []
  | c :: rest =>
    if _h : c.isDigit || c = '.' then
      ((c :: rest).takeWhile fun d => d.isDigit || d = '.') ::
        digitDotRuns (rest.dropWhile fun d => d.isDigit || d = '.')
    else digitDotRuns rest
  termination_by l => l.length
  decreasing_by
    · exact Nat.lt_succ_of_le (List.dropWhile_sublist _).length_le
    · exact Nat.lt_succ_self _

/-- The first decimal number found in a line, as §4.6 of the spec words it
("parse the first decimal number found in the text"): the first digit/period
run that `float` accepts. -/
def firstNumber_spec (line : List Char) : Option ℚ :=
  ((digitDotRuns line).filterMap pyFloat).head?

end TorqueApp

/-! ## Arithmetic helper lemmas -/

namespace TorqueApp

theorem mergeSort_pair (le : α → α → Bool) (a b : α) :
    [a, b].mergeSort le = if le a b then [a, b] else [b, a] := by
  rw [List.mergeSort]
  simp [List.splitInTwo, List.splitAt_eq, List.merge]

theorem mergeSort_triple (le : α → α → Bool) (a b c : α) :
    [a, b, c].mergeSort le =
      List.merge ([a, b].mergeSort le) [c] le := by
  rw [List.mergeSort]
  simp [List.splitInTwo, List.splitAt_eq]

theorem pyRound_intCast (k : ℤ) : pyRound (k : ℚ) = k := by
  simp [pyRound]

theorem abs_pyRound_sub (q : ℚ) : |(pyRound q : ℚ) - q| ≤ 1/2 := by
  have h0 : (⌊q⌋ : ℚ) ≤ q := Int.floor_le q
  have h1 : q < (⌊q⌋ : ℚ) + 1 := Int.lt_floor_add_one q
  unfold pyRound
  split
  · rw [abs_sub_comm, abs_of_nonneg (by linarith)]
    linarith
  · split
    · push_cast
      rw [abs_of_nonneg (by linarith)]
      linarith
    · split
      · rw [abs_sub_comm, abs_of_nonneg (by linarith)]
        linarith
      · push_cast
        rw [abs_of_nonneg (by linarith)]
        linarith

theorem pyRound_nonneg {q : ℚ} (h : 0 ≤ q) : 0 ≤ pyRound q := by
  have h0 : (0:ℤ) ≤ ⌊q⌋ := Int.floor_nonneg.mpr h
  unfold pyRound
  split
  · exact h0
  · split
    · omega
    · split <;> omega

/-! ## Decimal formatting and parsing lemmas -/

theorem natVal_go (acc : ℕ) (l : List Char) :
    l.foldl (fun a c => 10 * a + digitVal c) acc = acc * 10 ^ l.length + natVal l := by
  induction l generalizing acc with
  | nil => simp [natVal]
  | cons c cs ih =>
    show cs.foldl _ (10 * acc + digitVal c) = _
    rw [ih]
    have h2 : natVal (c :: cs) = digitVal c * 10 ^ cs.length + natVal cs := by
      show cs.foldl _ (10 * 0 + digitVal c) = _
      rw [ih]
      ring_nf
    rw [h2]
    simp [List.length_cons]
    ring

theorem natVal_append (a b : List Char) :
    natVal (a ++ b) = natVal a * 10 ^ b.length + natVal b := by
  unfold natVal
  rw [List.foldl_append]
  exact natVal_go _ b

theorem digitVal_decDigit {n : ℕ} (h : n < 10) : digitVal (decDigit n) = n := by
  interval_cases n <;> decide

theorem isDigit_decDigit {n : ℕ} (h : n < 10) : (decDigit n).isDigit = true := by
  interval_cases n <;> decide

theorem natVal_singleton (c : Char) : natVal [c] = digitVal c := by
  simp [natVal]

theorem natToDec_ne_nil (n : ℕ) : natToDec n ≠ [] := by
  unfold natToDec
  split
  · simp
  · simp

theorem mem_natToDec_isDigit (n : ℕ) : ∀ c ∈ natToDec n, c.isDigit = true := by
  induction n using Nat.strong_induction_on with
  | _ n ih =>
    unfold natToDec
    split
    · intro c hc
      simp at hc
      subst hc
      exact isDigit_decDigit (by omega)
    · intro c hc
      simp at hc
      rcases hc with hc | hc
      · exact ih (n / 10) (Nat.div_lt_self (by omega) (by omega)) c hc
      · subst hc
        exact isDigit_decDigit (Nat.mod_lt _ (by omega))

theorem natVal_natToDec (n : ℕ) : natVal (natToDec n) = n := by
  induction n using Nat.strong_induction_on with
  | _ n ih =>
    unfold natToDec
    split
    · rw [natVal_singleton, digitVal_decDigit (by omega)]
    · rw [natVal_append, ih (n / 10) (Nat.div_lt_self (by omega) (by omega)),
        natVal_singleton, digitVal_decDigit (Nat.mod_lt _ (by omega))]
      simp
      omega


theorem roundTens_close (x : ℚ) : |(pyRound (x / 10) : ℚ) * 10 - x| ≤ 5 := by
  have h := abs_pyRound_sub (x / 10)
  have h2 : (pyRound (x / 10) : ℚ) * 10 - x = 10 * ((pyRound (x / 10) : ℚ) - x / 10) := by
    ring
  rw [h2, abs_mul, abs_of_nonneg (show (0:ℚ) ≤ 10 by norm_num)]
  linarith

/-- C3 as frozen is false: at `max_torque = 100` the third value is 30,
rounded from the unrounded product 33.3, and `|30 - 33.3| = 3.3` exceeds
5% of 33.3 (which is 1.665). -/
theorem claim_C3_counterexample :
    calc_applied_torques 100 = [90, 60, 30] ∧
    ¬ |(30:ℚ) - 100 * (333/1000)| ≤ (5/100) * (100 * (333/1000)) := by
  have e1 : pyRound (100 * (916/1000) / 10) = 9 := by norm_num [pyRound]
  have e2 : pyRound (100 * (583/1000) / 10) = 6 := by norm_num [pyRound]
  have e3 : pyRound (100 * (333/1000) / 10) = 3 := by norm_num [pyRound]
  constructor
  · simp [calc_applied_torques, e1, e2, e3]
    norm_num
  · rw [abs_of_neg (by norm_num)]
    norm_num

/-- C3 (amended): for every `max_torque > 0`, `calc_applied_torques`
returns exactly 3 values obtained by multiplying by the factors
`[0.916, 0.583, 0.333]`; each is a multiple of 10 and differs from the
corresponding unrounded product by at most 5 in absolute value (the ±5%
bound of the frozen claim holds only when the product is at least 100). -/
theorem claim_C3 (M : ℚ) (_hM : 0 < M) :
    (calc_applied_torques M).length = 3 ∧
    (∀ v ∈ calc_applied_torques M, ∃ k : ℤ, v = 10 * k) ∧
    (∀ p ∈ (calc_applied_torques M).zip [(916:ℚ)/1000, 583/1000, 333/1000],
      |p.1 - M * p.2| ≤ 5) := by
  have hc : calc_applied_torques M =
      [(pyRound (M * (916/1000) / 10) : ℚ) * 10,
       (pyRound (M * (583/1000) / 10) : ℚ) * 10,
       (pyRound (M * (333/1000) / 10) : ℚ) * 10] := by
    simp [calc_applied_torques]
  rw [hc]
  refine ⟨rfl, ?_, ?_⟩
  · intro v hv
    simp only [List.mem_cons, List.not_mem_nil, or_false] at hv
    rcases hv with h | h | h
    · exact ⟨pyRound (M * (916/1000) / 10), by rw [h]; ring⟩
    · exact ⟨pyRound (M * (583/1000) / 10), by rw [h]; ring⟩
    · exact ⟨pyRound (M * (333/1000) / 10), by rw [h]; ring⟩
  · intro p hp
    simp only [List.zip_cons_cons, List.zip_nil_right, List.mem_cons,
      List.not_mem_nil, or_false] at hp
    rcases hp with h | h | h <;> (subst h; exact roundTens_close _)

theorem claim_C3_witness :
    (calc_applied_torques 100).length = 3 ∧
    (∀ v ∈ calc_applied_torques 100, ∃ k : ℤ, v = 10 * k) ∧
    (∀ p ∈ (calc_applied_torques 100).zip [(916:ℚ)/1000, 583/1000, 333/1000],
      |p.1 - 100 * p.2| ≤ 5) :=
  claim_C3 100 (by norm_num)

/-- C5: unit normalization lower-cases and trims the unit text, multiplies
by 1.35582 for foot-pound synonyms and by 0.113 for inch-pound synonyms,
and returns the value unchanged for newton-meter synonyms and unrecognized
text; with the spec's four concrete instances. -/
theorem claim_C5 :
    (∀ (v : ℚ) (u : List Char), normalizeUnit defaultUnitConfig v u =
      if stripWs (pyLower u) ∈ defaultFtLb then v * (135582/100000)
      else if stripWs (pyLower u) ∈ defaultInLb then v * (113/1000)
      else v) ∧
    normalizeUnit defaultUnitConfig 100 "ft-lb".data = 135582/1000 ∧
    normalizeUnit defaultUnitConfig 100 "in-lb".data = 113/10 ∧
    normalizeUnit defaultUnitConfig 100 "Nm".data = 100 ∧
    normalizeUnit defaultUnitConfig 100 "bogus".data = 100 := by
  refine ⟨?_, ?_, ?_, ?_, ?_⟩
  · intro v u
    simp only [normalizeUnit, defaultUnitConfig, ftlb_to_nm, inlb_to_nm]
    split_ifs <;> rfl
  all_goals
    first
    | (simp +decide [normalizeUnit, ftlb_to_nm, inlb_to_nm, defaultUnitConfig,
        defaultFtLb, defaultInLb, defaultNm, stripWs, pyLower, pyIsSpace]
       try norm_num)



/-- C10: whenever a range string does not split on `'-'` into exactly two
float-parseable parts (e.g. because a negative lower bound adds a third
part), `parse_range` returns `(None, None)` and `within_allowance` returns
`False` for every target — malformed ranges classify as no-fit, not error. -/
theorem claim_C10 (target : ℚ) (s : List Char)
    (h : ¬((pySplit '-' s).length = 2 ∧
          ∀ p ∈ pySplit '-' s, (pyFloat (stripWs p)).isSome)) :
    parse_range s = (none, none) ∧ within_allowance target s = false := by
  have hpr : parse_range s = (none, none) := by
    simp only [parse_range]
    rcases hps : pySplit '-' s with _ | ⟨p0, _ | ⟨p1, _ | ⟨p2, rest⟩⟩⟩
    · rfl
    · rfl
    · push_neg at h
      rw [hps] at h
      dsimp only
      rcases h (by simp) with ⟨p, hp, hps2⟩
      rcases List.mem_cons.mp hp with rfl | hp
      · rcases hv0 : pyFloat (stripWs p) with _ | v0
        · rcases hv1 : pyFloat (stripWs p1) with _ | v1 <;> rfl
        · rw [hv0] at hps2; simp at hps2
      · rcases List.mem_cons.mp hp with rfl | hp
        · rcases hv0 : pyFloat (stripWs p0) with _ | v0
          · rfl
          · rcases hv1 : pyFloat (stripWs p) with _ | v1
            · rfl
            · rw [hv1] at hps2; simp at hps2
        · simp at hp
    · rfl
  refine ⟨hpr, ?_⟩
  simp only [within_allowance]
  rw [hpr]

theorem claim_C10_witness :
    parse_range "-5.0 - 5.0".data = (none, none) ∧
    within_allowance 0 "-5.0 - 5.0".data = false :=
  claim_C10 0 "-5.0 - 5.0".data (by decide)



theorem lookupRange_setRange_self (l : List (List Char × List ℚ)) (key : List Char)
    (v : List ℚ) : lookupRange (setRange l key v) key = v := by
  induction l with
  | nil => simp [setRange, lookupRange]
  | cons kw rest ih =>
    obtain ⟨k, w⟩ := kw
    by_cases hk : k = key
    · simp [setRange, lookupRange, hk]
    · simp [setRange, lookupRange, hk, ih]

theorem lookupRange_setRange_ne (l : List (List Char × List ℚ)) (key key' : List Char)
    (v : List ℚ) (h : key' ≠ key) :
    lookupRange (setRange l key v) key' = lookupRange l key' := by
  induction l with
  | nil =>
    simp only [setRange, lookupRange]
    rw [if_neg (fun hh => h hh.symm)]
  | cons kw rest ih =>
    obtain ⟨k, w⟩ := kw
    by_cases hk : k = key
    · subst hk
      simp only [setRange, if_pos rfl, lookupRange]
      rw [if_neg (fun hh => h hh.symm), if_neg (fun hh => h hh.symm)]
    · simp only [setRange, if_neg hk, lookupRange]
      by_cases hk2 : k = key'
      · rw [if_pos hk2, if_pos hk2]
      · rw [if_neg hk2, if_neg hk2, ih]

theorem accept_fit_le_five (st : AggState) (rowId : ℕ) (v : ℚ) (fit : Fit)
    (hinv : ∀ k, (lookupRange st.results_by_range k).length ≤ 5) :
    ∀ k, (lookupRange (accept_fit rowId v st fit).results_by_range k).length ≤ 5 := by
  intro k
  simp only [accept_fit]
  split
  case isTrue hlen =>
    by_cases hk : k = fit.range_str
    · subst hk
      simp [lookupRange_setRange_self]
      omega
    · simp [lookupRange_setRange_ne _ _ _ _ hk]
      exact hinv k
  case isFalse => exact hinv k

/-- C6: the aggregator never stores more than 5 samples per band: from the
empty session state every attempt sequence keeps all band lists at length
at most 5; an attempt on a full band is rejected with no mutation and no
persistence call; an attempt on a non-full band appends the value, records
exactly one persistence call and touches no other band; reset empties every
band list. -/
theorem claim_C6 :
    (∀ (attempts : List (ℕ × ℚ × Fit)) (key : List Char),
      (lookupRange
        (attempts.foldl (fun st a => accept_fit a.1 a.2.1 st a.2.2) initAggState).results_by_range
        key).length ≤ 5) ∧
    (∀ (st : AggState) (rowId : ℕ) (v : ℚ) (fit : Fit),
      5 ≤ (lookupRange st.results_by_range fit.range_str).length →
      accept_fit rowId v st fit = st) ∧
    (∀ (st : AggState) (rowId : ℕ) (v : ℚ) (fit : Fit),
      (lookupRange st.results_by_range fit.range_str).length < 5 →
      lookupRange (accept_fit rowId v st fit).results_by_range fit.range_str
          = lookupRange st.results_by_range fit.range_str ++ [v] ∧
        (accept_fit rowId v st fit).raw_data = st.raw_data ++
          [{ value := v, row_id := rowId,
             band_label := "allowance".data ++ natToDec fit.allowance_index,
             range_str := fit.range_str }] ∧
        ∀ k, k ≠ fit.range_str →
          lookupRange (accept_fit rowId v st fit).results_by_range k
            = lookupRange st.results_by_range k) ∧
    (∀ (st : AggState) (key : List Char),
      lookupRange (resetAggregator st).results_by_range key = []) := by
  refine ⟨?_, ?_, ?_, ?_⟩
  · intro attempts
    have hgen : ∀ (st : AggState),
        (∀ k, (lookupRange st.results_by_range k).length ≤ 5) →
        ∀ k, (lookupRange
          (attempts.foldl (fun st a => accept_fit a.1 a.2.1 st a.2.2) st).results_by_range
          k).length ≤ 5 := by
      induction attempts with
      | nil => intro st h k; simpa using h k
      | cons a rest ih =>
        intro st h k
        simp only [List.foldl_cons]
        exact ih _ (accept_fit_le_five _ _ _ _ h) k
    exact fun key => hgen initAggState (by simp [initAggState, lookupRange]) key
  · intro st rowId v fit h
    simp only [accept_fit]
    rw [if_neg (by omega)]
  · intro st rowId v fit h
    refine ⟨?_, ?_, ?_⟩
    · simp only [accept_fit]
      rw [if_pos h]
      simp [lookupRange_setRange_self]
    · simp only [accept_fit]
      rw [if_pos h]
    · intro k hk
      simp only [accept_fit]
      rw [if_pos h]
      simp [lookupRange_setRange_ne _ _ _ _ hk]
  · intro st key
    simp [resetAggregator, lookupRange]


theorem claim_C6_witness :
    accept_fit 0 7
      { results_by_range := [(['a'], [1, 1, 1, 1, 1])], raw_data := [] }
      { row := { id := 0, max_torque := 0, unit := [], allowance1 := [],
                 allowance2 := [], allowance3 := [] },
        allowance_index := 1, range_str := ['a'], diff := 0 }
      = { results_by_range := [(['a'], [1, 1, 1, 1, 1])], raw_data := [] } :=
  claim_C6.2.1 _ 0 7 _ (by decide)



theorem loopGo_append_fail (pre post : List ReadEvent) (h : ReadEvent.fail ∉ pre) :
    loopGo (pre ++ .fail :: post) = ((loopGo pre).1, 1) := by
  induction pre with
  | nil => simp [loopGo]
  | cons e es ih =>
    have he : e ≠ .fail := fun hh => h (by simp [hh])
    have hes : ReadEvent.fail ∉ es := fun hh => h (by simp [hh])
    cases e with
    | fail => exact absurd rfl he
    | line s =>
      simp only [List.cons_append, loopGo, List.append_eq, ih hes]
      rcases hv : (if stripWs s ≠ [] then parse_torque_value (stripWs s) else none) with _ | v <;>
        rfl

/-- C9 as frozen is false on the open-failure half: a failed open is caught
inside `read_from_serial`, which logs a debug line and returns normally, so
no explicit error reaches the caller (nothing is raised and the return is
the same `None` a clean stop produces). -/
theorem claim_C9_counterexample :
    (read_from_serial false []).raised = false ∧
    (read_from_serial false []).openErrorLogged = true ∧
    (read_from_serial false []).callbacks = [] := by
  refine ⟨rfl, rfl, rfl⟩

/-- C9 (amended): a failed open is logged and aborts the run before any
result callback, but no error is surfaced to the caller; a mid-stream read
failure stops the loop at that point, is logged exactly once (on the debug
channel, never through the result callback), the source is closed, and
again nothing is raised to the caller. -/
theorem claim_C9 (events pre post : List ReadEvent)
    (hsplit : events = pre ++ .fail :: post) (hpre : ReadEvent.fail ∉ pre) :
    (read_from_serial false events).callbacks = [] ∧
    (read_from_serial false events).raised = false ∧
    (read_from_serial false events).openErrorLogged = true ∧
    (read_from_serial true events).readErrorLogs = 1 ∧
    (read_from_serial true events).closed = true ∧
    (read_from_serial true events).raised = false ∧
    (read_from_serial true events).callbacks = (read_from_serial true pre).callbacks := by
  subst hsplit
  have h := loopGo_append_fail pre post hpre
  simp [read_from_serial, h]

theorem claim_C9_witness :
    (read_from_serial false [ReadEvent.line "5".data, ReadEvent.fail]).callbacks = [] ∧
    (read_from_serial false [ReadEvent.line "5".data, ReadEvent.fail]).raised = false ∧
    (read_from_serial false [ReadEvent.line "5".data, ReadEvent.fail]).openErrorLogged = true ∧
    (read_from_serial true [ReadEvent.line "5".data, ReadEvent.fail]).readErrorLogs = 1 ∧
    (read_from_serial true [ReadEvent.line "5".data, ReadEvent.fail]).closed = true ∧
    (read_from_serial true [ReadEvent.line "5".data, ReadEvent.fail]).raised = false ∧
    (read_from_serial true [ReadEvent.line "5".data, ReadEvent.fail]).callbacks
      = (read_from_serial true [ReadEvent.line "5".data]).callbacks :=
  claim_C9 [ReadEvent.line "5".data, ReadEvent.fail] [ReadEvent.line "5".data] []
    rfl (by decide)



theorem loopGo_lines (lines : List (List Char)) :
    loopGo (lines.map ReadEvent.line)
      = (lines.filterMap (fun l => parse_torque_value (stripWs l)), 0) := by
  induction lines with
  | nil => rfl
  | cons l ls ih =>
    simp only [List.map_cons, loopGo, List.append_eq, ih, List.filterMap_cons]
    by_cases hl : stripWs l = []
    · rw [if_neg (by simp [hl]), hl]
      rfl
    · rw [if_pos hl]
      rcases hv : parse_torque_value (stripWs l) with _ | v <;> rfl

/-- C8 as frozen is false: on the line `". 5"` the first `[\d.]+` run is the
lone period, `float` rejects it and the line is discarded, although the
first decimal number found in the text is 5. -/
theorem claim_C8_counterexample :
    parse_torque_value ". 5".data = none ∧
    firstNumber_spec ". 5".data = some 5 := by
  constructor
  · rfl
  · simp +decide [firstNumber_spec, digitDotRuns, pyFloat, pyFloatMag, pyExpPart,
      stripWs, pyIsSpace, natVal, digitVal, List.takeWhile, List.dropWhile]

/-- C8 (amended): the acquisition loop invokes the callback exactly on the
values of lines whose first digit/period run parses as a float (after
stripping); a line with no such run, or whose first run `float` rejects, is
silently discarded with no callback and no error, even when a parseable
number occurs later in the line. -/
theorem claim_C8 (lines : List (List Char)) :
    (read_from_serial true (lines.map ReadEvent.line)).callbacks
      = lines.filterMap (fun l => (firstRun (stripWs l)).bind pyFloat) ∧
    (read_from_serial true (lines.map ReadEvent.line)).readErrorLogs = 0 ∧
    (read_from_serial true (lines.map ReadEvent.line)).raised = false := by
  have h := loopGo_lines lines
  refine ⟨?_, ?_, ?_⟩ <;>
    simp [read_from_serial, h, parse_torque_value]



theorem findProfileAux_some (cfg : UnitConfig) (vnm tol : ℚ) :
    ∀ (table : List TorqueRow) (n i : ℕ) (r : TorqueRow),
      findProfileAux cfg vnm tol table n = some (i, r) →
      n ≤ i ∧ table.get? (i - n) = some r ∧
        |normalizeUnit cfg r.max_torque r.unit - vnm| ≤ tol ∧
        ∀ j r', j < i - n → table.get? j = some r' →
          ¬ |normalizeUnit cfg r'.max_torque r'.unit - vnm| ≤ tol := by
  intro table
  induction table with
  | nil => intro n i r hr; simp [findProfileAux] at hr
  | cons row rest ih =>
    intro n i r hr
    simp only [findProfileAux] at hr
    split at hr
    case isTrue hq =>
      have h := Option.some_inj.mp hr
      obtain ⟨rfl, rfl⟩ : n = i ∧ row = r :=
        ⟨congrArg Prod.fst h, congrArg Prod.snd h⟩
      refine ⟨le_refl _, by simp, hq, ?_⟩
      intro j r' hj _
      omega
    case isFalse hq =>
      obtain ⟨hn, hget, hqual, hmin⟩ := ih (n + 1) i r hr
      refine ⟨by omega, ?_, hqual, ?_⟩
      · have : i - n = (i - (n + 1)) + 1 := by omega
        rw [this]
        simpa using hget
      · intro j r' hj hgj
        match j, hgj with
        | 0, hgj =>
          have hrow : row = r' := by simpa using hgj
          rw [← hrow]
          exact hq
        | j + 1, hgj =>
          refine hmin j r' (by omega) (by simpa using hgj)

theorem findProfileAux_none (cfg : UnitConfig) (vnm tol : ℚ) :
    ∀ (table : List TorqueRow) (n : ℕ),
      findProfileAux cfg vnm tol table n = none ↔
        ∀ r ∈ table, ¬ |normalizeUnit cfg r.max_torque r.unit - vnm| ≤ tol := by
  intro table
  induction table with
  | nil => intro n; simp [findProfileAux]
  | cons row rest ih =>
    intro n
    simp only [findProfileAux]
    split
    case isTrue hq => simp [hq]
    case isFalse hq =>
      rw [ih (n + 1)]
      constructor
      · intro h r hr
        rcases List.mem_cons.mp hr with rfl | hr
        · exact hq
        · exact h r hr
      · intro h r hr
        exact h r (List.mem_cons_of_mem _ hr)

/-- C4: `auto_select_max_torque` normalizes the input and each stored row to
Nm, uses tolerance `max(0.10 * input_nm, 2.0)`, selects the first row in
storage order within tolerance (reporting that row and its index), and when
no row qualifies leaves the current selection unchanged without error. -/
theorem claim_C4 (cfg : UnitConfig) (v : ℚ) (u : List Char)
    (table : List TorqueRow) (sel : Option (ℕ × TorqueRow)) :
    (∀ i r, findProfileAux cfg (normalizeUnit cfg v u)
        (max (normalizeUnit cfg v u * (10/100)) 2) table 0 = some (i, r) →
      table.get? i = some r ∧
      |normalizeUnit cfg r.max_torque r.unit - normalizeUnit cfg v u|
        ≤ max (normalizeUnit cfg v u * (10/100)) 2 ∧
      (∀ j r', j < i → table.get? j = some r' →
        ¬ |normalizeUnit cfg r'.max_torque r'.unit - normalizeUnit cfg v u|
          ≤ max (normalizeUnit cfg v u * (10/100)) 2) ∧
      auto_select_max_torque cfg v u table sel = some (i, r)) ∧
    (findProfileAux cfg (normalizeUnit cfg v u)
        (max (normalizeUnit cfg v u * (10/100)) 2) table 0 = none →
      (∀ r ∈ table, ¬ |normalizeUnit cfg r.max_torque r.unit - normalizeUnit cfg v u|
        ≤ max (normalizeUnit cfg v u * (10/100)) 2) ∧
      auto_select_max_torque cfg v u table sel = sel) := by
  constructor
  · intro i r hfind
    obtain ⟨-, hget, hqual, hmin⟩ := findProfileAux_some cfg _ _ table 0 i r hfind
    simp only [Nat.sub_zero] at hget hmin
    refine ⟨hget, hqual, fun j r' hj hgj => hmin j r' (by omega) hgj, ?_⟩
    simp [auto_select_max_torque, hfind]
  · intro hfind
    refine ⟨(findProfileAux_none cfg _ _ table 0).mp hfind, ?_⟩
    simp [auto_select_max_torque, hfind]

theorem claim_C4_witness :
    (∀ r ∈ [rowNm 3 50, rowNm 9 200],
      ¬ |normalizeUnit defaultUnitConfig r.max_torque r.unit -
          normalizeUnit defaultUnitConfig 100 "Nm".data|
        ≤ max (normalizeUnit defaultUnitConfig 100 "Nm".data * (10/100)) 2) ∧
    auto_select_max_torque defaultUnitConfig 100 "Nm".data
      [rowNm 3 50, rowNm 9 200] (some (0, rowNm 3 50)) = some (0, rowNm 3 50) := by
  refine (claim_C4 defaultUnitConfig 100 "Nm".data _ _).2 ?_
  simp +decide [findProfileAux, rowNm, normalizeUnit, defaultUnitConfig, defaultFtLb,
    defaultInLb, defaultNm, stripWs, pyLower, pyIsSpace]
  norm_num [abs_sub_comm]



theorem isDigit_not_space {c : Char} (h : c.isDigit = true) : pyIsSpace c = false := by
  by_cases h1 : c = ' '
  · rw [h1] at h; exact absurd h (by decide)
  by_cases h2 : c = '\t'
  · rw [h2] at h; exact absurd h (by decide)
  by_cases h3 : c = '\n'
  · rw [h3] at h; exact absurd h (by decide)
  by_cases h4 : c = '\x0d'
  · rw [h4] at h; exact absurd h (by decide)
  by_cases h5 : c = '\x0b'
  · rw [h5] at h; exact absurd h (by decide)
  by_cases h6 : c = '\x0c'
  · rw [h6] at h; exact absurd h (by decide)
  simp [pyIsSpace, h1, h2, h3, h4, h5, h6]

theorem isDigit_ne_minus {c : Char} (h : c.isDigit = true) : c ≠ '-' :=
  fun hh => absurd h (by rw [hh]; decide)

theorem isDigit_ne_plus {c : Char} (h : c.isDigit = true) : c ≠ '+' :=
  fun hh => absurd h (by rw [hh]; decide)

theorem fmtTenths_of_nonneg {k : ℤ} (hk : 0 ≤ k) :
    fmtTenths k = natToDec (k.natAbs / 10) ++ '.' :: [decDigit (k.natAbs % 10)] := by
  unfold fmtTenths
  rw [if_neg (by omega)]
  simp

theorem fmtTenths_chars {k : ℤ} (hk : 0 ≤ k) :
    ∀ c ∈ fmtTenths k, c.isDigit = true ∨ c = '.' := by
  rw [fmtTenths_of_nonneg hk]
  intro c hc
  rcases List.mem_append.mp hc with hc | hc
  · exact Or.inl (mem_natToDec_isDigit _ c hc)
  · rcases List.mem_cons.mp hc with rfl | hc
    · exact Or.inr rfl
    · simp only [List.mem_singleton] at hc
      subst hc
      exact Or.inl (isDigit_decDigit (Nat.mod_lt _ (by omega)))

theorem fmtTenths_not_space {k : ℤ} (hk : 0 ≤ k) :
    ∀ c ∈ fmtTenths k, pyIsSpace c = false := by
  intro c hc
  rcases fmtTenths_chars hk c hc with h | rfl
  · exact isDigit_not_space h
  · decide

theorem fmtTenths_no_minus {k : ℤ} (hk : 0 ≤ k) : '-' ∉ fmtTenths k := by
  intro hc
  rcases fmtTenths_chars hk '-' hc with h | h
  · exact absurd h (by decide)
  · exact absurd h (by decide)

theorem dropWhile_eq_self_of_all_false {p : Char → Bool} {s : List Char}
    (h : ∀ c ∈ s, p c = false) : s.dropWhile p = s := by
  cases s with
  | nil => rfl
  | cons c rest =>
    rw [List.dropWhile_cons, h c (List.mem_cons_self _ _)]
    simp

theorem dropWhile_eq_nil_of_all_true {p : Char → Bool} {s : List Char}
    (h : ∀ c ∈ s, p c = true) : s.dropWhile p = [] := by
  induction s with
  | nil => rfl
  | cons c rest ih =>
    rw [List.dropWhile_cons, h c (List.mem_cons_self _ _)]
    simp only [if_true]
    exact ih fun d hd => h d (List.mem_cons_of_mem _ hd)

theorem stripWs_eq_self {s : List Char} (h : ∀ c ∈ s, pyIsSpace c = false) :
    stripWs s = s := by
  unfold stripWs
  rw [dropWhile_eq_self_of_all_false h,
    dropWhile_eq_self_of_all_false (fun c hc => h c (List.mem_reverse.mp hc)),
    List.reverse_reverse]

theorem stripWs_pad (pre post s : List Char) (hpre : ∀ c ∈ pre, pyIsSpace c = true)
    (hpost : ∀ c ∈ post, pyIsSpace c = true) (hs : ∀ c ∈ s, pyIsSpace c = false) :
    stripWs (pre ++ s ++ post) = s := by
  unfold stripWs
  rw [List.append_assoc, List.dropWhile_append_of_pos hpre]
  cases s with
  | nil =>
    simp only [List.nil_append]
    rw [dropWhile_eq_nil_of_all_true hpost]
    rfl
  | cons c rest =>
    rw [show (c :: rest) ++ post = c :: (rest ++ post) from rfl,
      List.dropWhile_cons, hs c (List.mem_cons_self _ _)]
    simp only [Bool.false_eq_true, if_false]
    rw [show (c :: (rest ++ post)).reverse = post.reverse ++ (c :: rest).reverse from by simp,
      List.dropWhile_append_of_pos (fun d hd => hpost d (List.mem_reverse.mp hd)),
      dropWhile_eq_self_of_all_false (fun d hd => hs d (List.mem_reverse.mp hd)),
      List.reverse_reverse]

theorem pySplit_of_not_mem {sep : Char} {a : List Char} (h : sep ∉ a) :
    pySplit sep a = [a] := by
  induction a with
  | nil => rfl
  | cons c rest ih =>
    have hc : c ≠ sep := fun hh => h (by simp [hh])
    simp only [pySplit, if_neg hc, ih (fun hh => h (List.mem_cons_of_mem _ hh))]

theorem pySplit_append_sep {sep : Char} {a b : List Char} (h : sep ∉ a) :
    pySplit sep (a ++ sep :: b) = a :: pySplit sep b := by
  induction a with
  | nil => simp [pySplit]
  | cons c rest ih =>
    have hc : c ≠ sep := fun hh => h (by simp [hh])
    simp only [List.cons_append, pySplit, List.append_eq, if_neg hc,
      ih (fun hh => h (List.mem_cons_of_mem _ hh))]


theorem pyFloatMag_fmt (n₁ n₂ : ℕ) (h2 : n₂ < 10) :
    pyFloatMag (natToDec n₁ ++ '.' :: [decDigit n₂]) = some ((n₁ : ℚ) + (n₂ : ℚ) / 10) := by
  have hdot : ('.').isDigit = false := by decide
  simp only [pyFloatMag]
  rw [List.takeWhile_append_of_pos (mem_natToDec_isDigit n₁),
    List.dropWhile_append_of_pos (mem_natToDec_isDigit n₁)]
  simp only [List.takeWhile_cons, List.dropWhile_cons, hdot]
  norm_num [List.takeWhile, List.dropWhile, isDigit_decDigit h2, natVal_natToDec,
    natVal_singleton, digitVal_decDigit h2, natToDec_ne_nil, pyExpPart]


theorem pyFloat_fmtTenths {k : ℤ} (hk : 0 ≤ k) :
    pyFloat (fmtTenths k) = some ((k : ℚ) / 10) := by
  have hself : stripWs (fmtTenths k) = fmtTenths k :=
    stripWs_eq_self (fmtTenths_not_space hk)
  obtain ⟨c, cs, hcs⟩ := List.exists_cons_of_ne_nil (natToDec_ne_nil (k.natAbs / 10))
  have hcdig : c.isDigit = true := by
    apply mem_natToDec_isDigit (k.natAbs / 10)
    rw [hcs]
    exact List.mem_cons_self _ _
  have hshape : fmtTenths k = c :: (cs ++ '.' :: [decDigit (k.natAbs % 10)]) := by
    rw [fmtTenths_of_nonneg hk, hcs]
    rfl
  unfold pyFloat
  rw [hself, hshape]
  simp only
  rw [if_neg (isDigit_ne_plus hcdig), if_neg (isDigit_ne_minus hcdig)]
  rw [show c :: (cs ++ '.' :: [decDigit (k.natAbs % 10)])
      = natToDec (k.natAbs / 10) ++ '.' :: [decDigit (k.natAbs % 10)] from by rw [hcs]; rfl]
  rw [pyFloatMag_fmt _ _ (Nat.mod_lt _ (by omega))]
  have hnm : 10 * (k.natAbs / 10) + k.natAbs % 10 = k.natAbs := Nat.div_add_mod _ _
  have habs : ((k.natAbs : ℕ) : ℚ) = (k : ℚ) := by
    rw [Int.cast_natAbs]
    exact congrArg (fun z : ℤ => (z : ℚ)) (abs_of_nonneg hk)
  have hval : ((k.natAbs / 10 : ℕ) : ℚ) + ((k.natAbs % 10 : ℕ) : ℚ) / 10 = (k : ℚ) / 10 := by
    rw [← habs]
    conv_rhs => rw [← hnm]
    push_cast
    ring
  rw [hval]


theorem parse_range_fmt {k j : ℤ} (hk : 0 ≤ k) (hj : 0 ≤ j) :
    parse_range (fmtTenths k ++ ' ' :: '-' :: ' ' :: fmtTenths j)
      = (some ((k : ℚ) / 10), some ((j : ℚ) / 10)) := by
  have hm1 : '-' ∉ fmtTenths k ++ [' '] := by
    intro hc
    rcases List.mem_append.mp hc with hc | hc
    · exact fmtTenths_no_minus hk hc
    · simp at hc
  have hm2 : '-' ∉ ' ' :: fmtTenths j := by
    intro hc
    rcases List.mem_cons.mp hc with hc | hc
    · simp at hc
    · exact fmtTenths_no_minus hj hc
  have hsplit : pySplit '-' (fmtTenths k ++ ' ' :: '-' :: ' ' :: fmtTenths j)
      = [fmtTenths k ++ [' '], ' ' :: fmtTenths j] := by
    rw [show fmtTenths k ++ ' ' :: '-' :: ' ' :: fmtTenths j
        = (fmtTenths k ++ [' ']) ++ '-' :: (' ' :: fmtTenths j) from by simp]
    rw [pySplit_append_sep hm1, pySplit_of_not_mem hm2]
  have hstrip1 : stripWs (fmtTenths k ++ [' ']) = fmtTenths k := by
    have := stripWs_pad [] [' '] (fmtTenths k) (by decide) (by decide)
      (fmtTenths_not_space hk)
    simpa using this
  have hstrip2 : stripWs (' ' :: fmtTenths j) = fmtTenths j := by
    have := stripWs_pad [' '] [] (fmtTenths j) (by decide) (by decide)
      (fmtTenths_not_space hj)
    simpa using this
  simp only [parse_range, hsplit]
  rw [hstrip1, hstrip2, pyFloat_fmtTenths hk, pyFloat_fmtTenths hj]



theorem fmtRound1_eq_fmtTenths (q : ℚ) :
    fmtRound1 (round1 q) = fmtTenths (pyRound (10 * q)) := by
  unfold fmtRound1 round1
  rw [show (10 : ℚ) * ((pyRound (10 * q) : ℚ) / 10) = (pyRound (10 * q) : ℚ) from by ring,
    pyRound_intCast]

/-- C2: `calc_allowance_range` realizes the spec's band formula exactly —
6% tolerance for targets below 10 and 4% otherwise, bounds
`target*(1∓tol)` rounded to one decimal — and for targets at least 10 the
produced string parses back to exactly those two rounded bounds. -/
theorem claim_C2 (t : ℚ) :
    calc_allowance_range t
      = fmtRound1 (compute_band_spec t).1 ++ ' ' :: '-' :: ' ' :: fmtRound1 (compute_band_spec t).2 ∧
    (10 ≤ t → parse_range (calc_allowance_range t)
      = (some (compute_band_spec t).1, some (compute_band_spec t).2)) := by
  have hstr : calc_allowance_range t
      = fmtRound1 (compute_band_spec t).1 ++ ' ' :: '-' :: ' ' :: fmtRound1 (compute_band_spec t).2 := by
    simp only [calc_allowance_range, compute_band_spec]
    by_cases ht : t < 10
    · rw [if_pos ht, if_pos ht]
      simp only [fmtRound1_eq_fmtTenths]
      rw [show t * (1 - 6/100) = t * (94/100) from by ring,
        show t * (1 + 6/100) = t * (106/100) from by ring]
      simp [fmtRound1, List.append_assoc]
    · rw [if_neg ht, if_neg ht]
      simp only [fmtRound1_eq_fmtTenths]
      rw [show t * (1 - 4/100) = t * (96/100) from by ring,
        show t * (1 + 4/100) = t * (104/100) from by ring]
      simp [fmtRound1, List.append_assoc]
  refine ⟨hstr, ?_⟩
  intro ht
  have hnl : ¬ t < 10 := by linarith
  have hspec : compute_band_spec t = (round1 (t * (96/100)), round1 (t * (104/100))) := by
    simp [compute_band_spec, hnl]
  rw [hstr, hspec]
  have hk1 : 0 ≤ pyRound (10 * (t * (96/100))) := pyRound_nonneg (by nlinarith)
  have hk2 : 0 ≤ pyRound (10 * (t * (104/100))) := pyRound_nonneg (by nlinarith)
  simp only [fmtRound1_eq_fmtTenths]
  rw [parse_range_fmt hk1 hk2]
  rfl

theorem claim_C2_witness :
    calc_allowance_range 100
      = fmtRound1 (compute_band_spec 100).1 ++ ' ' :: '-' :: ' ' :: fmtRound1 (compute_band_spec 100).2 ∧
    parse_range (calc_allowance_range 100)
      = (some (compute_band_spec 100).1, some (compute_band_spec 100).2) :=
  ⟨(claim_C2 100).1, (claim_C2 100).2 (by norm_num)⟩



theorem parse_calc_allowance {t : ℚ} (htnn : 0 ≤ t) :
    parse_range (calc_allowance_range t) =
      (some (round1 (t * (1 - (if t < 10 then (6:ℚ)/100 else 4/100)))),
       some (round1 (t * (1 + (if t < 10 then (6:ℚ)/100 else 4/100))))) := by
  have htol0 : (0:ℚ) ≤ 1 - (if t < 10 then (6:ℚ)/100 else 4/100) := by
    split <;> norm_num
  have htol1 : (0:ℚ) ≤ 1 + (if t < 10 then (6:ℚ)/100 else 4/100) := by
    split <;> norm_num
  have hk1 : 0 ≤ pyRound (10 * (t * (1 - (if t < 10 then (6:ℚ)/100 else 4/100)))) :=
    pyRound_nonneg (by positivity)
  have hk2 : 0 ≤ pyRound (10 * (t * (1 + (if t < 10 then (6:ℚ)/100 else 4/100)))) :=
    pyRound_nonneg (by positivity)
  simp only [calc_allowance_range, fmtRound1]
  rw [List.append_assoc]
  rw [show ([' ', '-', ' '] : List Char) ++
      fmtTenths (pyRound (10 * (t * (1 + (if t < 10 then (6:ℚ)/100 else 4/100)))))
      = ' ' :: '-' :: ' ' ::
        fmtTenths (pyRound (10 * (t * (1 + (if t < 10 then (6:ℚ)/100 else 4/100))))) from rfl]
  rw [parse_range_fmt hk1 hk2]
  rfl

theorem bandFit_eq {t : ℚ} {row : TorqueRow} {i : ℕ} {l h : ℚ}
    (hp : parse_range (rowGet row i) = (some l, some h))
    (hin : l ≤ t ∧ t ≤ h) :
    bandFit t row i = [Fit.mk row i (rowGet row i) (|((l + h) / 2) - t|)] := by
  have hw : within_allowance t (rowGet row i) = true := by
    simp only [within_allowance, hp]
    exact decide_eq_true hin
  simp only [bandFit, hw, hp]
  rfl


theorem calc_bounds_of_mul10 (m : ℕ) :
    ∃ L H : ℚ, parse_range (calc_allowance_range (10 * (m:ℚ))) = (some L, some H) ∧
      L ≤ 10 * (m:ℚ) ∧ (10 * (m:ℚ)) ≤ H ∧ L + H = 2 * (10 * (m:ℚ)) := by
  rcases Nat.eq_zero_or_pos m with rfl | hm
  · refine ⟨0, 0, ?_, by norm_num, by norm_num, by norm_num⟩
    rw [parse_calc_allowance (by norm_num)]
    norm_num [round1, pyRound]
  · have hm1 : (1:ℚ) ≤ (m:ℚ) := by exact_mod_cast hm
    have hmnn : (0:ℚ) ≤ (m:ℚ) := by positivity
    have ht : ¬ (10 * (m:ℚ) < 10) := by push_neg; linarith
    have hL : round1 (10 * (m:ℚ) * (1 - 4/100)) = 96 * (m:ℚ) / 10 := by
      unfold round1
      rw [show (10:ℚ) * (10 * (m:ℚ) * (1 - 4/100)) = ((96 * m : ℤ) : ℚ) from by
        push_cast; ring, pyRound_intCast]
      push_cast
      ring
    have hH : round1 (10 * (m:ℚ) * (1 + 4/100)) = 104 * (m:ℚ) / 10 := by
      unfold round1
      rw [show (10:ℚ) * (10 * (m:ℚ) * (1 + 4/100)) = ((104 * m : ℤ) : ℚ) from by
        push_cast; ring, pyRound_intCast]
      push_cast
      ring
    refine ⟨96 * (m:ℚ) / 10, 104 * (m:ℚ) / 10, ?_, by linarith, by linarith, by ring⟩
    rw [parse_calc_allowance (by positivity), if_neg ht, hL, hH]

/-- C7 (amended): for every target that is a nonnegative multiple of 10 —
the form `calc_applied_torques` produces — classifying a reading exactly
equal to the target against the band built by `calc_allowance_range` yields
a Fit for that band with distance 0. -/
theorem claim_C7 (m : ℕ) (i : ℕ) (row : TorqueRow) (hi : i = 1 ∨ i = 2 ∨ i = 3)
    (h : rowGet row i = calc_allowance_range (10 * (m:ℚ))) :
    ∃ f ∈ find_fits_in_selected_row (10 * (m:ℚ)) row,
      f.allowance_index = i ∧ f.diff = 0 := by
  obtain ⟨L, H, hp, hLt, htH, hsum⟩ := calc_bounds_of_mul10 m
  rw [← h] at hp
  have hband := bandFit_eq hp ⟨hLt, htH⟩
  have hdiff : |((L + H) / 2) - 10 * (m:ℚ)| = 0 := by
    rw [show (L + H) / 2 = 10 * (m:ℚ) from by linarith]
    simp
  refine ⟨Fit.mk row i (rowGet row i) (|((L + H) / 2) - 10 * (m:ℚ)|), ?_, rfl, hdiff⟩
  unfold find_fits_in_selected_row
  rw [List.mem_mergeSort]
  rcases hi with rfl | rfl | rfl
  · rw [List.mem_append, List.mem_append]
    exact Or.inl (Or.inl (by rw [hband]; exact List.mem_singleton_self _))
  · rw [List.mem_append, List.mem_append]
    exact Or.inl (Or.inr (by rw [hband]; exact List.mem_singleton_self _))
  · rw [List.mem_append]
    exact Or.inr (by rw [hband]; exact List.mem_singleton_self _)

theorem claim_C7_witness :
    ∃ f ∈ find_fits_in_selected_row (10 * ((9:ℕ):ℚ))
        (rowWith1 (calc_allowance_range (10 * ((9:ℕ):ℚ)))),
      f.allowance_index = 1 ∧ f.diff = 0 :=
  claim_C7 9 1 (rowWith1 (calc_allowance_range (10 * ((9:ℕ):ℚ)))) (Or.inl rfl) rfl

/-- C7 as frozen is false for targets that are not one-decimal-symmetric:
from target 33.33 the band computation yields the string
`"32.0 - 34.7"`, and the reading 33.33 produces a Fit whose distance is
`|33.35 - 33.33| = 0.02`, not 0. -/
theorem claim_C7_counterexample :
    List.map Fit.diff (find_fits_in_selected_row (3333/100)
        (rowWith1 (calc_allowance_range (3333/100)))) = [1/50] ∧
      (1/50 : ℚ) ≠ 0 := by
  constructor
  · have hp := parse_calc_allowance (show (0:ℚ) ≤ 3333/100 by norm_num)
    have hnl : ¬ (3333/100 : ℚ) < 10 := by norm_num
    rw [if_neg hnl] at hp
    have hL : round1 ((3333/100 : ℚ) * (1 - 4/100)) = 32 := by
      norm_num [round1, pyRound]
    have hH : round1 ((3333/100 : ℚ) * (1 + 4/100)) = 347/10 := by
      norm_num [round1, pyRound]
    rw [hL, hH] at hp
    have hp1 : parse_range (rowGet (rowWith1 (calc_allowance_range (3333/100))) 1)
        = (some 32, some (347/10)) := hp
    have hband := bandFit_eq (t := 3333/100) hp1 ⟨by norm_num, by norm_num⟩
    have hb2 : bandFit (3333/100) (rowWith1 (calc_allowance_range (3333/100))) 2 = [] := rfl
    have hb3 : bandFit (3333/100) (rowWith1 (calc_allowance_range (3333/100))) 3 = [] := rfl
    unfold find_fits_in_selected_row
    rw [hband, hb2, hb3]
    simp only [List.append_nil, List.nil_append, List.mergeSort_singleton, List.map_cons,
      List.map_nil]
    norm_num
  · norm_num



theorem pairwise_mergeSort_stable (l : List Fit)
    (hidx : l.Pairwise fun a b => a.allowance_index < b.allowance_index) :
    (l.mergeSort fun a b => decide (a.diff ≤ b.diff)).Pairwise
      (fun a b => a.diff ≤ b.diff ∧ (a.diff = b.diff → a.allowance_index ≤ b.allowance_index)) := by
  have htrans : ∀ a b c : Fit, (fun a b : Fit => decide (a.diff ≤ b.diff)) a b →
      (fun a b : Fit => decide (a.diff ≤ b.diff)) b c →
      (fun a b : Fit => decide (a.diff ≤ b.diff)) a c := by
    intro a b c hab hbc
    simp only [decide_eq_true_eq] at *
    exact le_trans hab hbc
  have htotal : ∀ a b : Fit, ((fun a b : Fit => decide (a.diff ≤ b.diff)) a b ||
      (fun a b : Fit => decide (a.diff ≤ b.diff)) b a) := by
    intro a b
    simp only [Bool.or_eq_true, decide_eq_true_eq]
    exact le_total a.diff b.diff
  have hsorted := List.sorted_mergeSort
    (fun a b c => List.enumLE_trans htrans a b c)
    (fun a b => List.enumLE_total htotal a b) l.enum
  rw [← List.mergeSort_enum, List.pairwise_map]
  refine hsorted.imp_of_mem ?_
  intro x y hx hy hr
  obtain ⟨i, a⟩ := x
  obtain ⟨j, b⟩ := y
  rw [List.mem_mergeSort, List.mem_enum_iff_getElem?] at hx hy
  simp only [List.enumLE] at hr
  split at hr
  case isFalse h1 => exact absurd hr (by simp)
  case isTrue h1 =>
    have hab : a.diff ≤ b.diff := by simpa using h1
    refine ⟨hab, fun heq => ?_⟩
    split at hr
    case isFalse h2 =>
      exact absurd (decide_eq_true (le_of_eq heq.symm)) h2
    case isTrue h2 =>
      have hij : i ≤ j := by simpa using hr
      rcases Nat.lt_or_ge i j with hlt | hge
      · obtain ⟨hi, hgi⟩ := List.getElem?_eq_some.mp hx
        obtain ⟨hj, hgj⟩ := List.getElem?_eq_some.mp hy
        have := List.pairwise_iff_getElem.mp hidx i j hi hj hlt
        rw [hgi, hgj] at this
        exact le_of_lt this
      · have hieq : i = j := by omega
        subst hieq
        rw [hx] at hy
        have hba : a = b := by injection hy
        rw [hba]


theorem bandFit_ite {t : ℚ} {row : TorqueRow} {i : ℕ} {l h : ℚ}
    (hp : parse_range (rowGet row i) = (some l, some h)) :
    bandFit t row i =
      if l ≤ t ∧ t ≤ h then [Fit.mk row i (rowGet row i) (|((l + h) / 2) - t|)]
      else [] := by
  by_cases hin : l ≤ t ∧ t ≤ h
  · rw [if_pos hin, bandFit_eq hp hin]
  · rw [if_neg hin]
    have hw : within_allowance t (rowGet row i) = false := by
      simp only [within_allowance, hp]
      exact decide_eq_false hin
    simp [bandFit, hw]

/-- C1: on a row whose three allowance strings parse, classification returns
a Fit for exactly the bands containing the reading (both ends inclusive),
each carrying distance `|value - (low+high)/2|`; the result has at most 3
entries, is non-decreasing in distance, and ties keep band index order. -/
theorem claim_C1 (t l1 h1 l2 h2 l3 h3 : ℚ) (row : TorqueRow)
    (hp1 : parse_range row.allowance1 = (some l1, some h1))
    (hp2 : parse_range row.allowance2 = (some l2, some h2))
    (hp3 : parse_range row.allowance3 = (some l3, some h3)) :
    List.Perm (find_fits_in_selected_row t row)
      ((if l1 ≤ t ∧ t ≤ h1 then [Fit.mk row 1 row.allowance1 (|t - (l1 + h1) / 2|)] else []) ++
       (if l2 ≤ t ∧ t ≤ h2 then [Fit.mk row 2 row.allowance2 (|t - (l2 + h2) / 2|)] else []) ++
       (if l3 ≤ t ∧ t ≤ h3 then [Fit.mk row 3 row.allowance3 (|t - (l3 + h3) / 2|)] else [])) ∧
    (find_fits_in_selected_row t row).length ≤ 3 ∧
    (find_fits_in_selected_row t row).Pairwise
      (fun a b => a.diff ≤ b.diff ∧ (a.diff = b.diff → a.allowance_index ≤ b.allowance_index)) := by
  have hcand : bandFit t row 1 ++ bandFit t row 2 ++ bandFit t row 3 =
      (if l1 ≤ t ∧ t ≤ h1 then [Fit.mk row 1 row.allowance1 (|((l1 + h1) / 2) - t|)] else []) ++
      (if l2 ≤ t ∧ t ≤ h2 then [Fit.mk row 2 row.allowance2 (|((l2 + h2) / 2) - t|)] else []) ++
      (if l3 ≤ t ∧ t ≤ h3 then [Fit.mk row 3 row.allowance3 (|((l3 + h3) / 2) - t|)] else []) := by
    rw [bandFit_ite (i := 1) hp1, bandFit_ite (i := 2) hp2, bandFit_ite (i := 3) hp3]
    rfl
  have habs1 : |((l1 + h1) / 2) - t| = |t - (l1 + h1) / 2| := abs_sub_comm _ _
  have habs2 : |((l2 + h2) / 2) - t| = |t - (l2 + h2) / 2| := abs_sub_comm _ _
  have habs3 : |((l3 + h3) / 2) - t| = |t - (l3 + h3) / 2| := abs_sub_comm _ _
  have hidx : (bandFit t row 1 ++ bandFit t row 2 ++ bandFit t row 3).Pairwise
      (fun a b => a.allowance_index < b.allowance_index) := by
    rw [hcand]
    split_ifs <;>
      simp_all [List.pairwise_append, List.pairwise_cons, List.mem_append, List.mem_singleton]
  refine ⟨?_, ?_, ?_⟩
  · have heq : bandFit t row 1 ++ bandFit t row 2 ++ bandFit t row 3 =
        (if l1 ≤ t ∧ t ≤ h1 then [Fit.mk row 1 row.allowance1 (|t - (l1 + h1) / 2|)] else []) ++
        (if l2 ≤ t ∧ t ≤ h2 then [Fit.mk row 2 row.allowance2 (|t - (l2 + h2) / 2|)] else []) ++
        (if l3 ≤ t ∧ t ≤ h3 then [Fit.mk row 3 row.allowance3 (|t - (l3 + h3) / 2|)] else []) := by
      rw [hcand, habs1, habs2, habs3]
    exact (List.mergeSort_perm _ _).trans (List.Perm.of_eq heq)
  · rw [show (find_fits_in_selected_row t row).length
        = (bandFit t row 1 ++ bandFit t row 2 ++ bandFit t row 3).length from
      List.length_mergeSort _]
    rw [hcand]
    split_ifs <;> simp
  · exact pairwise_mergeSort_stable _ hidx


theorem claim_C1_witness :
    (find_fits_in_selected_row 90
      { id := 0, max_torque := 0, unit := [], allowance1 := "86.4 - 93.6".data,
        allowance2 := "57.6 - 62.4".data, allowance3 := "28.8 - 31.2".data }).length ≤ 3 :=
  (claim_C1 90 (432/5) (468/5) (288/5) (312/5) (144/5) (156/5)
    { id := 0, max_torque := 0, unit := [], allowance1 := "86.4 - 93.6".data,
      allowance2 := "57.6 - 62.4".data, allowance3 := "28.8 - 31.2".data }
    (by simp +decide [parse_range, pySplit, pyFloat, pyFloatMag, pyExpPart, stripWs,
        pyIsSpace, natVal, digitVal, List.takeWhile, List.dropWhile]
        norm_num)
    (by simp +decide [parse_range, pySplit, pyFloat, pyFloatMag, pyExpPart, stripWs,
        pyIsSpace, natVal, digitVal, List.takeWhile, List.dropWhile]
        norm_num)
    (by simp +decide [parse_range, pySplit, pyFloat, pyFloatMag, pyExpPart, stripWs,
        pyIsSpace, natVal, digitVal, List.takeWhile, List.dropWhile]
        norm_num)).2.1


end TorqueApp
